import Mathlib

/-!
Shallow embedding of the HED (Hierarchical Event Descriptor) string
validator: the tokenizer/string parser, the tag formatter, the unit
resolution engine, the semantic rule engine and the validation
orchestrator, translated from `src/validator/event.js` (which also
contains the string parser) and `src/utils/hed.js`.

JavaScript strings are modelled as `List Char` (`Str`); only ASCII
behaviour of `toLowerCase`/`trim` is relevant to the validator's inputs
and is modelled faithfully for it.  Dictionaries of the schema attribute
object are modelled as association lists / key lists.
-/

namespace Hed

abbrev Str := List Char

/-- ASCII lower-casing of one character, as `String.prototype.toLowerCase`
acts on ASCII input. -/
def jsToLowerChar (c : Char) : Char :=
  if 65 ≤ c.toNat ∧ c.toNat ≤ 90 then
    Char.ofNat (c.toNat + 32)
  else c

def jsToLower (s : Str) : Str := s.map jsToLowerChar

/-- Whitespace as recognised by `String.prototype.trim` (ASCII part). -/
def isWS (c : Char) : Bool :=
  c = ' ' ∨ c = '\t' ∨ c = '\n' ∨ c = '\r' ∨ c = '\x0b' ∨ c = '\x0c'

def jsTrimLeft (s : Str) : Str := s.dropWhile isWS

def jsTrimRight (s : Str) : Str := (s.reverse.dropWhile isWS).reverse

def jsTrim (s : Str) : Str := jsTrimRight (jsTrimLeft s)

/-- `String.prototype.startsWith`. -/
def listStartsWith : Str → Str → Bool
  | _, [] => true
  | [], _ :: _ => false
  | c :: s, p :: ps => c = p ∧ listStartsWith s ps

/-- `String.prototype.endsWith`. -/
def listEndsWith (s p : Str) : Bool := listStartsWith s.reverse p.reverse

/-- `String.prototype.split` with a single-character separator. -/
def splitOnChar (sep : Char) : Str → List Str
  | [] => [[]]
  | c :: r =>
    match splitOnChar sep r with
    | [] => [[]]
    | t :: ts => if c = sep then [] :: t :: ts else (c :: t) :: ts

/-- Replace the first occurrence of a character
(`String.prototype.replace` with a plain one-character pattern). -/
def replaceFirst : Str → Char → Char → Str
  | [], _, _ => []
  | c :: r, a, b => if c = a then b :: r else c :: replaceFirst r a b

/-- `String.prototype.indexOf` for a single character (`-1` if absent). -/
def jsIndexOf (s : Str) (c : Char) : Int :=
  match s.findIdx? (· = c) with
  | some i => (i : Int)
  | none => -1

/-- Index of the last occurrence of a character, if any
(`String.prototype.lastIndexOf`). -/
def lastIndexOf (c : Char) : Str → Option Nat
  | [] => none
  | a :: r =>
    match lastIndexOf c r with
    | some i => some (i + 1)
    | none => if a = c then some 0 else none

/-- `String.prototype.slice(0, -n)`: drop the last `n` characters. -/
def dropLastN (s : Str) (n : Nat) : Str := s.take (s.length - n)

/-- Modelled from the spec: `utils.string.stringIsEmpty` is not under
`src/`; a string is empty when it trims to nothing. -/
def stringIsEmpty (s : Str) : Bool := jsTrim s = []

/-- Modelled from the spec: `utils.string.getCharacterCount` is not under
`src/`; the number of occurrences of a character in the string. -/
def getCharacterCount (s : Str) (c : Char) : Nat := s.count c

-- Issues.  `utils.generateIssue` (not under `src/`) pairs an issue code
-- with its parameter mapping; parameters are strings or numbers.

inductive PVal where
  | s : Str → PVal
  | n : Int → PVal
deriving DecidableEq, Repr

structure Issue where
  code : String
  params : List (String × PVal)
deriving DecidableEq, Repr

def generateIssue (code : String) (params : List (String × PVal)) : Issue :=
  ⟨code, params⟩

-- Validation tests from `src/validator/event.js`.

def tilde : Str := ['~']

def isDelimiter (c : Char) : Bool := c = ',' ∨ c = '~'

/-- `substituteCharacters`: substitute certain illegal characters
(only ASCII NUL is mapped) and report warnings when found.  The flagged
characters that are not in the map are passed through unchanged. -/
def substituteCharacters (hedString : Str) : Str × List Issue :=
  (hedString.map (fun c => if c = '\x00' then ' ' else c),
   (hedString.enum.filterMap (fun ic =>
     if ic.2 = '\x00' then
       some (generateIssue "invalidCharacter"
         [("character", PVal.s ("ASCII NUL".toList)),
          ("index", PVal.n ic.1),
          ("string", PVal.s hedString)])
     else none)))

/-- `countTagGroupParentheses`: check if group parentheses match. -/
def countTagGroupParentheses (hedString : Str) : List Issue :=
  let numberOfOpeningParentheses := getCharacterCount hedString '('
  let numberOfClosingParentheses := getCharacterCount hedString ')'
  if numberOfOpeningParentheses ≠ numberOfClosingParentheses then
    [generateIssue "parentheses"
      [("opening", PVal.n numberOfOpeningParentheses),
       ("closing", PVal.n numberOfClosingParentheses)]]
  else []

/-- `isCommaMissingAfterClosingParenthesis`.  The "last non-empty
character" is `none` before any non-empty character has been seen
(the JS code uses the empty string there). -/
def isCommaMissingAfterClosingParenthesis
    (lastNonEmptyCharacter : Option Char) (currentCharacter : Char) : Bool :=
  lastNonEmptyCharacter = some ')' ∧
    ¬ (isDelimiter currentCharacter ∨ currentCharacter = ')')

/-- Loop of `findDelimiterIssuesInHedString`: returns the final
last-non-empty-valid character and index together with the issues.
The `commaMissing` case breaks out of the loop. -/
def findDelimiterLoop (hedString : Str) :
    Nat → Str → Option Char → Nat → Str → List Issue →
    Option Char × Nat × List Issue
  | _, [], lastC, lastI, _, issues => (lastC, lastI, issues)
  | i, c :: rest, lastC, lastI, currentTag, issues =>
    let currentTag' := currentTag ++ [c]
    if isWS c then
      findDelimiterLoop hedString (i + 1) rest lastC lastI currentTag' issues
    else if isDelimiter c then
      if jsTrim currentTag' = [c] then
        findDelimiterLoop hedString (i + 1) rest lastC lastI []
          (issues ++ [generateIssue "extraDelimiter"
            [("character", PVal.s [c]), ("index", PVal.n i),
             ("string", PVal.s hedString)]])
      else
        findDelimiterLoop hedString (i + 1) rest (some c) i [] issues
    else if c = '(' then
      if jsTrim currentTag' = ['('] then
        findDelimiterLoop hedString (i + 1) rest (some c) i [] issues
      else
        findDelimiterLoop hedString (i + 1) rest (some c) i currentTag'
          (issues ++ [generateIssue "invalidTag" [("tag", PVal.s currentTag')]])
    else if isCommaMissingAfterClosingParenthesis lastC c then
      (lastC, lastI,
        issues ++ [generateIssue "commaMissing"
          [("tag", PVal.s currentTag'.dropLast)]])
    else
      findDelimiterLoop hedString (i + 1) rest (some c) i currentTag' issues

/-- `findDelimiterIssuesInHedString`: check for delimiter issues in a HED
string (missing commas adjacent to groups, extra commas or tildes). -/
def findDelimiterIssuesInHedString (hedString : Str) : List Issue :=
  let r := findDelimiterLoop hedString 0 hedString none 0 [] []
  match r.1 with
  | some c =>
    if isDelimiter c then
      r.2.2 ++ [generateIssue "extraDelimiter"
        [("character", PVal.s [c]), ("index", PVal.n r.2.1),
         ("string", PVal.s hedString)]]
    else r.2.2
  | none => r.2.2

/-- `validateFullHedString`: substitution warnings paired with the
structural (parenthesis count and delimiter scan) issues. -/
def validateFullHedString (hedString : Str) : List Issue × List Issue :=
  let sub := substituteCharacters hedString
  (sub.2, countTagGroupParentheses sub.1 ++ findDelimiterIssuesInHedString sub.1)

-- The string parser (the second document inside `src/validator/event.js`,
-- i.e. the `stringParser` module).

/-- `hedStringIsAGroup`: a HED string is a group when, trimmed, it is
surrounded by parentheses. -/
def hedStringIsAGroup (hedString : Str) : Bool :=
  let trimmedHedString := jsTrim hedString
  listStartsWith trimmedHedString ['('] ∧ listEndsWith trimmedHedString [')']

/-- `hedStringIsAnAttributeGroup`: whether the string contains a
well-formed curly-brace attribute group; malformed braces push
`invalidCharacter` issues (returned alongside the decision). -/
def hedStringIsAnAttributeGroup (hedString fullHedString : Str) :
    Bool × List Issue :=
  let trimmedHedString := jsTrim hedString
  if trimmedHedString.contains '{' then
    if ¬ trimmedHedString.contains '}' then
      (false, [generateIssue "invalidCharacter"
        [("character", PVal.s ['{']),
         ("index", PVal.n (jsIndexOf fullHedString '{')),
         ("string", PVal.s fullHedString)]])
    else if jsIndexOf trimmedHedString '{' > jsIndexOf trimmedHedString '}' then
      (false,
       [generateIssue "invalidCharacter"
          [("character", PVal.s ['{']),
           ("index", PVal.n (jsIndexOf fullHedString '{')),
           ("string", PVal.s fullHedString)],
        generateIssue "invalidCharacter"
          [("character", PVal.s ['}']),
           ("index", PVal.n (jsIndexOf fullHedString '}')),
           ("string", PVal.s fullHedString)]])
    else (true, [])
  else if trimmedHedString.contains '}' then
    (false, [generateIssue "invalidCharacter"
      [("character", PVal.s ['}']),
       ("index", PVal.n (jsIndexOf fullHedString '}')),
       ("string", PVal.s fullHedString)]])
  else (false, [])

/-- `removeGroupParentheses`: `tagGroup.slice(1, -1)`. -/
def removeGroupParentheses (tagGroup : Str) : Str :=
  (tagGroup.drop 1).dropLast

/-- Loop of `splitHedString`.  State: current index, remaining input,
opened/closed group counts, accumulated current tag, tag list, issues.
Double quotes are skipped; `(`/`{` and `)`/`}` share the two counters;
a top-level tilde pushes the current tag and the tilde; a top-level comma
pushes the current tag; square brackets are invalid characters that also
close the current tag. -/
def splitHedLoop (hedString : Str) :
    Nat → Str → Nat → Nat → Str → List Str → List Issue →
    List Str × List Issue
  | _, [], _, _, currentTag, hedTags, issues =>
    (if stringIsEmpty currentTag then hedTags
     else hedTags ++ [jsTrim currentTag], issues)
  | i, c :: rest, opened, closed, currentTag, hedTags, issues =>
    if c = '"' then
      splitHedLoop hedString (i + 1) rest opened closed currentTag hedTags issues
    else
      let opened' := if c = '(' ∨ c = '{' then opened + 1 else opened
      let closed' := if c = ')' ∨ c = '}' then closed + 1 else closed
      if opened' = closed' ∧ c = '~' then
        let hedTags' := if stringIsEmpty currentTag then hedTags
          else hedTags ++ [jsTrim currentTag]
        splitHedLoop hedString (i + 1) rest opened' closed' []
          (hedTags' ++ [tilde]) issues
      else if opened' = closed' ∧ c = ',' then
        let hedTags' := if stringIsEmpty currentTag then hedTags
          else hedTags ++ [jsTrim currentTag]
        splitHedLoop hedString (i + 1) rest opened' closed' [] hedTags' issues
      else if c = '[' ∨ c = ']' then
        let hedTags' := if stringIsEmpty currentTag then hedTags
          else hedTags ++ [jsTrim currentTag]
        splitHedLoop hedString (i + 1) rest opened' closed' [] hedTags'
          (issues ++ [generateIssue "invalidCharacter"
            [("character", PVal.s [c]), ("index", PVal.n i),
             ("string", PVal.s hedString)]])
      else
        splitHedLoop hedString (i + 1) rest opened' closed'
          (currentTag ++ [c]) hedTags issues

/-- `splitHedString`: split a full HED string into tags (top-level
relative to the passed string), together with the issues it pushes. -/
def splitHedString (hedString : Str) : List Str × List Issue :=
  splitHedLoop hedString 0 hedString 0 0 [] [] []

/-- Parser accumulator: the mutable `parsedString` fields written by
`findTopLevelTags`/`findTagGroups`, plus the threaded issue list. -/
structure ParseAccum where
  tags : List Str
  tagGroups : List (List Str)
  tagGroupStrings : List Str
  issues : List Issue
deriving DecidableEq, Repr

/-- `findTagGroups`: classify every token as nested group, attribute
group, or plain tag, recursing into groups (children recorded before the
parent).  The JS recursion re-tokenizes each group interior; the `fuel`
argument only bounds that recursion depth so the definition is total by
structural recursion: tokens are non-empty substrings of the input, each
nesting level strips two parentheses, so the fuel chosen in
`parseHedString` is never exhausted. -/
def findTagGroups : Nat → List Str → Str → ParseAccum → ParseAccum
  | 0, _, _, acc => acc
  | _ + 1, [], _, acc => acc
  | fuel + 1, tagOrGroup :: rest, hedString, acc =>
    if hedStringIsAGroup tagOrGroup then
      let tagGroupString := removeGroupParentheses tagOrGroup
      let split := splitHedString tagGroupString
      let acc1 := findTagGroups fuel split.1 hedString
        { acc with issues := acc.issues ++ split.2 }
      findTagGroups fuel rest hedString
        { acc1 with
          tagGroupStrings := acc1.tagGroupStrings ++ [tagOrGroup],
          tagGroups := acc1.tagGroups ++ [split.1] }
    else
      let attr := hedStringIsAnAttributeGroup tagOrGroup hedString
      let acc' := { acc with issues := acc.issues ++ attr.2 }
      if attr.1 then
        let parts := splitOnChar '{' tagOrGroup
        let primaryTag := jsTrim (parts.headD [])
        let attributeTagString := jsTrim ((parts.tail.headD []).dropLast)
        let split := splitHedString attributeTagString
        let tagGroupList := split.1.map (fun tag =>
          if listStartsWith tag ['/'] then "Attribute".toList ++ tag
          else "Attribute/".toList ++ tag)
        findTagGroups fuel rest hedString
          { acc' with
            issues := acc'.issues ++ split.2,
            tagGroupStrings := acc'.tagGroupStrings ++ [tagOrGroup],
            tagGroups := acc'.tagGroups ++ [primaryTag :: tagGroupList] }
      else if ¬ acc'.tags.contains tagOrGroup then
        findTagGroups fuel rest hedString
          { acc' with tags := acc'.tags ++ [tagOrGroup] }
      else
        findTagGroups fuel rest hedString acc'

/-- `findTopLevelTags`: tokens that are not group-shaped are top-level
tags and are also pushed (deduplicated by raw string) into `tags`. -/
def findTopLevelTags : List Str → ParseAccum → List Str × ParseAccum
  | [], acc => ([], acc)
  | tagOrGroup :: rest, acc =>
    if ¬ hedStringIsAGroup tagOrGroup then
      let acc' := if ¬ acc.tags.contains tagOrGroup then
          { acc with tags := acc.tags ++ [tagOrGroup] }
        else acc
      let r := findTopLevelTags rest acc'
      (tagOrGroup :: r.1, r.2)
    else
      findTopLevelTags rest acc

/-- `formatHedTag`: remove the first newline; unless only newline removal
is requested, strip one leading/trailing double quote, one
leading/trailing slash, and lower-case.  (The source's bare
`hedTag.trim()` discards its result and is a no-op.) -/
def formatHedTag (hedTag : Str) (onlyRemoveNewLine : Bool) : Str :=
  let t := replaceFirst hedTag '\n' ' '
  if onlyRemoveNewLine then t
  else
    let t := if listStartsWith t ['"'] then t.drop 1 else t
    let t := if listEndsWith t ['"'] then t.dropLast else t
    let t := if listStartsWith t ['/'] then t.drop 1 else t
    let t := if listEndsWith t ['/'] then t.dropLast else t
    jsToLower t

/-- `formatHedTagsInList` on a flat list. -/
def formatHedTagsInList (hedTagList : List Str) (onlyRemoveNewLine : Bool) :
    List Str :=
  hedTagList.map (fun t => formatHedTag t onlyRemoveNewLine)

/-- The parse stage of `parseHedString` before the formatting passes:
split, collect top-level tags, then resolve groups.  The fuel passed to
`findTagGroups` is large enough never to run out (see there). -/
def parseHedStringAccum (hedString : Str) : List Str × ParseAccum :=
  let split := splitHedString hedString
  let acc0 : ParseAccum := ⟨[], [], [], split.2⟩
  let tl := findTopLevelTags split.1 acc0
  (tl.1, findTagGroups (2 * hedString.length + 2) split.1 hedString tl.2)

/-- The parsed HED string data produced by `parseHedString`. -/
structure ParsedStringRaw where
  tags : List Str
  tagGroups : List (List Str)
  tagGroupStrings : List Str
  topLevelTags : List Str
  formattedTags : List Str
  formattedTagGroups : List (List Str)
  formattedTopLevelTags : List Str
deriving DecidableEq, Repr

/-- `parseHedString`: parse a full HED string into the tag-type object,
returning also the issues pushed into the threaded issue array. -/
def parseHedString (hedString : Str) : ParsedStringRaw × List Issue :=
  let r := parseHedStringAccum hedString
  let tags := formatHedTagsInList r.2.tags true
  let tagGroups := r.2.tagGroups.map (fun g => formatHedTagsInList g true)
  let topLevelTags := formatHedTagsInList r.1 true
  (⟨tags, tagGroups, r.2.tagGroupStrings, topLevelTags,
    formatHedTagsInList tags false,
    tagGroups.map (fun g => formatHedTagsInList g false),
    formatHedTagsInList topLevelTags false⟩, r.2.issues)

-- Schema attribute dictionaries.  The schema loader is an external
-- collaborator (out of scope per the spec); the core consumes its
-- dictionaries as a read-only lookup interface.

/-- Modelled from the spec: the schema attribute object built by the
(absent) schema loader, as the read-only attribute-kind → lookup-table
interface the core consumes.  Dictionaries whose values matter are
association lists; pure existence dictionaries are key lists. -/
structure SchemaAttributes where
  tags : List Str
  takesValue : List Str
  unitClass : List (Str × Str)
  units : List (Str × List Str)
  defaultUnit : List (Str × Str)
  defaultUnits : List (Str × Str)
  unique : List Str
  required : List Str
  requireChild : List Str
  extensionAllowed : List Str
  unitSymbol : List Str
  SIUnitModifier : List Str
  SIUnitSymbolModifier : List Str
deriving DecidableEq, Repr

def emptySchemaAttributes : SchemaAttributes :=
  ⟨[], [], [], [], [], [], [], [], [], [], [], [], []⟩

/-- Modelled from the spec: the schema object's `tagHasAttribute` method
is part of the schema loader (not under `src/`); it looks the tag up in
the named attribute dictionary. -/
def tagHasAttribute (hedSchema : SchemaAttributes) (tag : Str)
    (attr : String) : Bool :=
  match attr with
  | "takesValue" => hedSchema.takesValue.contains tag
  | "unitClass" => (hedSchema.unitClass.lookup tag).isSome
  | "default" => (hedSchema.defaultUnit.lookup tag).isSome
  | "extensionAllowed" => hedSchema.extensionAllowed.contains tag
  | _ => false

/-- The source XML data of a schema; its contents are outside the core,
so it is modelled as a carrier with a single value. -/
structure XmlData where
deriving DecidableEq, Repr

/-- Modelled from the spec: schema loading (XML → attribute dictionaries)
is an external collaborator; since `XmlData` carries no data in this
embedding it builds the empty dictionaries. -/
def buildSchemaAttributesObject (_ : XmlData) : SchemaAttributes :=
  emptySchemaAttributes

structure HedSchema where
  attributes : Option SchemaAttributes
  xmlData : XmlData
deriving DecidableEq, Repr

structure Schemas where
  baseSchema : HedSchema
deriving DecidableEq, Repr

/-- `new Schemas(null)` as constructed by `validateHedEvent` when no
schema was supplied. -/
def nullSchemas : Schemas := ⟨⟨none, ⟨⟩⟩⟩

/-- Access to `hedSchemas.baseSchema.attributes`.  In the JS flows the
orchestrator builds the attributes before any semantic check runs, so
the empty-dictionaries default is never reached there. -/
def Schemas.attrs (s : Schemas) : SchemaAttributes :=
  s.baseSchema.attributes.getD emptySchemaAttributes

-- `src/utils/hed.js`: tag utilities and the unit resolution engine.

/-- `replaceTagNameWithPound`: replace the end of a HED tag with `#`. -/
def replaceTagNameWithPound (formattedTag : Str) : Str :=
  match lastIndexOf '/' formattedTag with
  | some i => formattedTag.take i ++ ['/', '#']
  | none => ['#']

/-- `getTagSlashIndices`: the indices of all slashes in a HED tag. -/
def getTagSlashIndices (tag : Str) : List Nat :=
  (List.range tag.length).filter (fun i => tag.get? i = some '/')

/-- `getTagName`: the last part of a HED tag. -/
def getTagName (tag : Str) : Str :=
  match lastIndexOf '/' tag with
  | some i => tag.drop (i + 1)
  | none => tag

/-- Modelled from the spec: the external `pluralize` library, as the
regular plural (append `s`) with `hertz` registered uncountable. -/
def pluralizeUnit (unit : Str) : Str :=
  if unit = "hertz".toList then unit else unit ++ ['s']

/-- `getValidDerivativeUnits`: the unit itself, plus its plural when the
unit is not a unit symbol. -/
def getValidDerivativeUnits (unit : Str) (hedSchema : SchemaAttributes) :
    List Str :=
  if ¬ hedSchema.unitSymbol.contains unit then [unit, pluralizeUnit unit]
  else [unit]

/-- `stripOffUnitsIfValid`: strip the unit from the front or the back of
the value, then strip any matching SI modifier (full-word or symbol form
according to `isUnitSymbol`) from the remainder. -/
def stripOffUnitsIfValid (tagUnitValue : Str) (hedSchema : SchemaAttributes)
    (unit : Str) (isUnitSymbol : Bool) : Bool × Str :=
  let first :=
    if listStartsWith tagUnitValue unit then
      (true, jsTrim (tagUnitValue.drop unit.length))
    else if listEndsWith tagUnitValue unit then
      (true, jsTrim (dropLastN tagUnitValue unit.length))
    else (false, ([] : Str))
  if first.1 then
    let modifiers := if isUnitSymbol then hedSchema.SIUnitSymbolModifier
      else hedSchema.SIUnitModifier
    (true, modifiers.foldl (fun strippedValue unitModifier =>
      if listStartsWith strippedValue unitModifier then
        jsTrim (strippedValue.drop unitModifier.length)
      else if listEndsWith strippedValue unitModifier then
        jsTrim (dropLastN strippedValue unitModifier.length)
      else strippedValue) first.2)
  else first

/-- Stable insertion of a string into a list sorted by descending
length (the comparator `(first, second) => second.length - first.length`
of `validateUnits`, under a stable sort). -/
def insertDesc (x : Str) : List Str → List Str
  | [] => [x]
  | y :: r => if y.length > x.length then y :: insertDesc x r else x :: y :: r

/-- Stable sort by descending string length. -/
def sortDescLength : List Str → List Str
  | [] => []
  | x :: r => insertDesc x (sortDescLength r)

/-- One derivative-unit attempt inside `validateUnits`: symbol units are
compared (case-sensitively) against the original value, other units
against the formatted value. -/
def tryDerivative (originalTagUnitValue formattedTagUnitValue : Str)
    (hedSchema : SchemaAttributes) (unit derivativeUnit : Str) : Option Str :=
  let r :=
    if hedSchema.unitSymbol.contains unit then
      stripOffUnitsIfValid originalTagUnitValue hedSchema derivativeUnit true
    else
      stripOffUnitsIfValid formattedTagUnitValue hedSchema derivativeUnit false
  if r.1 then some r.2 else none

/-- One iteration of the outer loop of `validateUnits`: try every
derivative form of `unit`, returning the first stripped value found. -/
def tryUnit (originalTagUnitValue formattedTagUnitValue : Str)
    (hedSchema : SchemaAttributes) (unit : Str) : Option Str :=
  (getValidDerivativeUnits unit hedSchema).foldl (fun acc derivativeUnit =>
    match acc with
    | some v => some v
    | none => tryDerivative originalTagUnitValue formattedTagUnitValue
        hedSchema unit derivativeUnit) none

/-- The unit-trying loop of `validateUnits` over the sorted unit list. -/
def findFirstUnit (originalTagUnitValue formattedTagUnitValue : Str)
    (hedSchema : SchemaAttributes) : List Str → Option Str
  | [] => none
  | unit :: rest =>
    match tryUnit originalTagUnitValue formattedTagUnitValue hedSchema unit with
    | some v => some v
    | none => findFirstUnit originalTagUnitValue formattedTagUnitValue
        hedSchema rest

/-- `validateUnits`: sort the candidate units by descending length, try
each (with derivative forms) as a prefix or suffix and return the
stripped remainder of the first match; if none matches, return the
formatted value unchanged. -/
def validateUnits (originalTagUnitValue formattedTagUnitValue : Str)
    (tagUnitClassUnits : List Str) (hedSchema : SchemaAttributes) : Str :=
  match findFirstUnit originalTagUnitValue formattedTagUnitValue hedSchema
      (sortDescLength tagUnitClassUnits) with
  | some v => v
  | none => formattedTagUnitValue

/-- `tagExistsInSchema`. -/
def tagExistsInSchema (formattedTag : Str) (hedSchema : SchemaAttributes) :
    Bool :=
  hedSchema.tags.contains formattedTag

/-- `tagTakesValue`. -/
def tagTakesValue (formattedTag : Str) (hedSchema : SchemaAttributes) : Bool :=
  tagHasAttribute hedSchema (replaceTagNameWithPound formattedTag) "takesValue"

/-- `isUnitClassTag`. -/
def isUnitClassTag (formattedTag : Str) (hedSchema : SchemaAttributes) : Bool :=
  tagHasAttribute hedSchema (replaceTagNameWithPound formattedTag) "unitClass"

/-- `getUnitClassDefaultUnit`.  The JS function returns `undefined` when
the unit-class tag is in neither dictionary; that is modelled as the
empty string (the value only ever reaches issue parameters). -/
def getUnitClassDefaultUnit (formattedTag : Str)
    (hedSchema : SchemaAttributes) : Str :=
  if isUnitClassTag formattedTag hedSchema then
    let unitClassTag := replaceTagNameWithPound formattedTag
    if tagHasAttribute hedSchema unitClassTag "default" then
      (hedSchema.defaultUnit.lookup unitClassTag).getD []
    else
      match hedSchema.unitClass.lookup unitClassTag with
      | some unitClassesString =>
        (hedSchema.defaultUnits.lookup
          ((splitOnChar ',' unitClassesString).headD [])).getD []
      | none => []
  else []

/-- `getTagUnitClasses`. -/
def getTagUnitClasses (formattedTag : Str) (hedSchema : SchemaAttributes) :
    List Str :=
  if isUnitClassTag formattedTag hedSchema then
    splitOnChar ','
      ((hedSchema.unitClass.lookup (replaceTagNameWithPound formattedTag)).getD [])
  else []

/-- `getTagUnitClassUnits`. -/
def getTagUnitClassUnits (formattedTag : Str) (hedSchema : SchemaAttributes) :
    List Str :=
  (getTagUnitClasses formattedTag hedSchema).foldl
    (fun units unitClass => units ++ (hedSchema.units.lookup unitClass).getD [])
    []

/-- `isExtensionAllowedTag`: the tag itself or any slash-ancestor has the
`extensionAllowed` attribute. -/
def isExtensionAllowedTag (formattedTag : Str) (hedSchema : SchemaAttributes) :
    Bool :=
  tagHasAttribute hedSchema formattedTag "extensionAllowed" ∨
  (getTagSlashIndices formattedTag).any (fun tagSlashIndex =>
    tagHasAttribute hedSchema (formattedTag.take tagSlashIndex)
      "extensionAllowed")

-- Modelled string/value utilities that the rule engine consumes but that
-- are not under `src/` (they live in the `utils.string`/`utils.HED`
-- modules of the repository).

def isDigits (s : Str) : Bool := s ≠ [] ∧ s.all Char.isDigit

/-- Digits with an optional single decimal point. -/
def isDecimalDigits (s : Str) : Bool :=
  match splitOnChar '.' s with
  | [a] => isDigits a
  | [a, b] => isDigits a ∧ isDigits b
  | _ => false

/-- An optionally signed integer (exponent part). -/
def isSignedDigits (s : Str) : Bool :=
  if listStartsWith s ['-'] ∨ listStartsWith s ['+'] then isDigits (s.drop 1)
  else isDigits s

/-- Modelled from the spec: `utils.HED.validateValue` is not under
`src/`; the generic numeric/placeholder format check (integer, decimal,
scientific notation, or a `#` placeholder when enabled). -/
def validateValue (value : Str) (allowPlaceholders : Bool) : Bool :=
  if allowPlaceholders ∧ value = ['#'] then true
  else
    let v := if listStartsWith value ['-'] then value.drop 1 else value
    match splitOnChar 'e' v with
    | [m] => isDecimalDigits m
    | [m, ex] => isDecimalDigits m ∧ isSignedDigits ex
    | _ => false

/-- An ISO `YYYY-MM-DD` date shape. -/
def isIsoDate (d : Str) : Bool :=
  match splitOnChar '-' d with
  | [y, m, dd] => isDigits y ∧ y.length = 4 ∧ isDigits m ∧ m.length = 2 ∧
      isDigits dd ∧ dd.length = 2
  | _ => false

/-- An `HH:MM:SS` time shape. -/
def isHmsTime (t : Str) : Bool :=
  match splitOnChar ':' t with
  | [h, mi, se] => isDigits h ∧ isDigits mi ∧ isDigits se
  | _ => false

/-- Modelled from the spec: `utils.string.isDateTime` is not under
`src/`; an ISO-like `YYYY-MM-DD` date, optionally followed by
`THH:MM:SS`. -/
def isDateTime (s : Str) : Bool :=
  match splitOnChar 'T' s with
  | [d] => isIsoDate d
  | [d, t] => isIsoDate d ∧ isHmsTime t
  | _ => false

def natOfDigits (s : Str) : Nat :=
  s.foldl (fun n c => n * 10 + (c.toNat - 48)) 0

/-- Modelled from the spec: `utils.string.isClockFaceTime` is not under
`src/`; an `HH:MM` or `HH:MM:SS` clock-face time with in-range fields. -/
def isClockFaceTime (s : Str) : Bool :=
  let fieldOk := fun (f : Str) (bound : Nat) =>
    isDigits f ∧ f.length ≤ 2 ∧ natOfDigits f ≤ bound
  match splitOnChar ':' s with
  | [h, m] => fieldOk h 23 ∧ fieldOk m 59
  | [h, m, se] => fieldOk h 23 ∧ fieldOk m 59 ∧ fieldOk se 59
  | _ => false

/-- ASCII upper-casing of one character. -/
def jsToUpperChar (c : Char) : Char :=
  if 97 ≤ c.toNat ∧ c.toNat ≤ 122 then Char.ofNat (c.toNat - 32) else c

/-- Modelled from the spec: `utils.string.capitalizeString` is not under
`src/`; the fixed capitalization rule upper-cases the first character. -/
def capitalizeString (s : Str) : Str :=
  match s with
  | [] => []
  | c :: r => jsToUpperChar c :: r

/-- The `camelCase` regular expression `([A-Z-]+\s*[a-z-]*)+` is
unanchored, so `RegExp.test` succeeds exactly when the string contains at
least one character from `[A-Z-]`. -/
def camelCaseTest (s : Str) : Bool :=
  s.any (fun c => (65 ≤ c.toNat ∧ c.toNat ≤ 90) ∨ c = '-')

-- The parsed-tag view consumed by the orchestrator in
-- `src/validator/event.js`.

/-- A parsed HED tag: the original text (newlines removed), the fully
formatted form, and the canonical form used in some issue messages. -/
structure ParsedHedTag where
  originalTag : Str
  formattedTag : Str
  canonicalTag : Str
deriving DecidableEq, Repr

/-- Modelled from the spec: the `ParsedHedTag`-producing string parser
imported by the orchestrator is not under `src/`; it is reconstructed
from the string parser that is (original = newline-removed raw text,
formatted = `formatHedTag` of it).  Canonicalization belongs to the
absent converter module and is modelled as the original text. -/
def mkParsedHedTag (raw : Str) : ParsedHedTag :=
  let originalTag := formatHedTag raw true
  ⟨originalTag, formatHedTag originalTag false, originalTag⟩

structure ParsedString where
  tags : List ParsedHedTag
  tagGroups : List (List ParsedHedTag)
  tagGroupStrings : List ParsedHedTag
  topLevelTags : List ParsedHedTag
deriving DecidableEq, Repr

def emptyParsedString : ParsedString := ⟨[], [], [], []⟩

/-- The typed wrapper of `parseHedString` used by the orchestrator
(see `mkParsedHedTag`). -/
def parseHedStringTyped (hedString : Str) : ParsedString × List Issue :=
  let r := parseHedStringAccum hedString
  (⟨r.2.tags.map mkParsedHedTag,
    r.2.tagGroups.map (fun g => g.map mkParsedHedTag),
    r.2.tagGroupStrings.map mkParsedHedTag,
    r.1.map mkParsedHedTag⟩, r.2.issues)

-- Semantic rule engine (`src/validator/event.js`).

/-- `checkCapitalization`: each path segment (minus the value segment of
a value-taking tag under semantic validation) that is neither capitalized
nor matches the camel-case pattern pushes one `capitalization` issue
naming the whole original tag. -/
def checkCapitalization (tag : ParsedHedTag) (hedSchemas : Schemas)
    (doSemanticValidation : Bool) : List Issue :=
  let tagNames := splitOnChar '/' tag.originalTag
  let tagNames :=
    if doSemanticValidation ∧ tagTakesValue tag.formattedTag hedSchemas.attrs
    then tagNames.dropLast else tagNames
  tagNames.foldl (fun issues tagName =>
    if tagName ≠ capitalizeString tagName ∧ ¬ camelCaseTest tagName then
      issues ++ [generateIssue "capitalization" [("tag", PVal.s tag.originalTag)]]
    else issues) []

/-- The issue pushed by `checkForDuplicateTags` for the pair `(ti, tj)`:
the original text when the originals differ at most by case, else the
canonical form. -/
def dupIssueFor (ti tj : ParsedHedTag) : Issue :=
  if jsToLower ti.originalTag = jsToLower tj.originalTag then
    generateIssue "duplicateTag" [("tag", PVal.s ti.originalTag)]
  else
    generateIssue "duplicateTag" [("tag", PVal.s ti.canonicalTag)]

def tagAt (tagList : List ParsedHedTag) (i : Nat) : ParsedHedTag :=
  tagList.getD i ⟨[], [], []⟩

/-- Inner loop of `checkForDuplicateTags` at outer index `i`; the state
is the `duplicateIndices` list and the issue list. -/
def dupInner (tagList : List ParsedHedTag) (i : Nat) :
    List Nat → List Nat × List Issue → List Nat × List Issue
  | [], st => st
  | j :: js, st =>
    if i = j then dupInner tagList i js st
    else
      let ti := tagAt tagList i
      let tj := tagAt tagList j
      if ti.formattedTag ≠ tilde ∧ ti.formattedTag = tj.formattedTag ∧
          ¬ st.1.contains i ∧ ¬ st.1.contains j then
        dupInner tagList i js (st.1 ++ [i, j], st.2 ++ [dupIssueFor ti tj])
      else dupInner tagList i js st

/-- Outer loop of `checkForDuplicateTags`. -/
def dupOuter (tagList : List ParsedHedTag) :
    List Nat → List Nat × List Issue → List Nat × List Issue
  | [], st => st
  | i :: is, st =>
    dupOuter tagList is (dupInner tagList i (List.range tagList.length) st)

/-- `checkForDuplicateTags`: duplicate tags at one level (nested groups
are single units); the tilde marker is exempt. -/
def checkForDuplicateTags (tagList : List ParsedHedTag) : List Issue :=
  (dupOuter tagList (List.range tagList.length) ([], [])).2

/-- Scan of one unique prefix over the tag list: `true` exactly when a
second tag starting with the prefix is found. -/
def findSecond (uniqueTagPrefix : Str) :
    List ParsedHedTag → Bool → Bool
  | [], _ => false
  | t :: ts, foundOne =>
    if listStartsWith t.formattedTag uniqueTagPrefix then
      if foundOne then true else findSecond uniqueTagPrefix ts true
    else findSecond uniqueTagPrefix ts foundOne

/-- `checkForMultipleUniqueTags`: one `multipleUniqueTags` issue per
unique prefix matched by two or more tags of the list. -/
def checkForMultipleUniqueTags (tagList : List ParsedHedTag)
    (hedSchemas : Schemas) : List Issue :=
  hedSchemas.attrs.unique.foldl (fun issues uniqueTagPrefix =>
    if findSecond uniqueTagPrefix tagList false then
      issues ++ [generateIssue "multipleUniqueTags"
        [("tag", PVal.s uniqueTagPrefix)]]
    else issues) []

/-- `checkNumberOfGroupTildes`: more than two tildes in one group. -/
def checkNumberOfGroupTildes (originalTagGroup : ParsedHedTag)
    (parsedTagGroup : List ParsedHedTag) : List Issue :=
  let tildeCount := (parsedTagGroup.map (fun g => g.originalTag)).count tilde
  if tildeCount > 2 then
    [generateIssue "tooManyTildes"
      [("tagGroup", PVal.s originalTagGroup.originalTag)]]
  else []

/-- `checkIfTagRequiresChild`. -/
def checkIfTagRequiresChild (tag : ParsedHedTag) (hedSchemas : Schemas) :
    List Issue :=
  if hedSchemas.attrs.requireChild.contains tag.formattedTag then
    [generateIssue "childRequired" [("tag", PVal.s tag.originalTag)]]
  else []

/-- `checkForRequiredTags`: every required prefix must head some
top-level tag. -/
def checkForRequiredTags (parsedString : ParsedString) (hedSchemas : Schemas) :
    List Issue :=
  hedSchemas.attrs.required.foldl (fun issues requiredTagPrefix =>
    if parsedString.topLevelTags.any (fun tag =>
        listStartsWith tag.formattedTag requiredTagPrefix) then issues
    else
      issues ++ [generateIssue "requiredPrefixMissing"
        [("tagPrefix", PVal.s requiredTagPrefix)]]) []

/-- Lexicographic comparison of strings by character code, as the JS
default `Array.prototype.sort` comparator behaves on strings. -/
def lexLe : Str → Str → Bool
  | [], _ => true
  | _ :: _, [] => false
  | a :: as, b :: bs => if a = b then lexLe as bs else decide (a < b)

def insertLex (x : Str) : List Str → List Str
  | [] => [x]
  | y :: r => if lexLe y x ∧ y ≠ x then y :: insertLex x r else x :: y :: r

/-- `Array.prototype.sort()` (default lexicographic, stable). -/
def sortLex : List Str → List Str
  | [] => []
  | x :: r => insertLex x (sortLex r)

/-- `units.sort().join(',')`. -/
def joinSortedUnits (units : List Str) : Str :=
  (sortLex units).intersperse [','] |>.flatten

/-- `checkIfTagUnitClassUnitsExist`: a unit-class tag whose bare value is
already numeric/placeholder gets the default-unit warning. -/
def checkIfTagUnitClassUnitsExist (tag : ParsedHedTag) (hedSchemas : Schemas)
    (allowPlaceholders : Bool) : List Issue :=
  if isUnitClassTag tag.formattedTag hedSchemas.attrs then
    let tagUnitValues := getTagName tag.formattedTag
    if validateValue tagUnitValues allowPlaceholders then
      [generateIssue "unitClassDefaultUsed"
        [("tag", PVal.s tag.originalTag),
         ("defaultUnit",
          PVal.s (getUnitClassDefaultUnit tag.formattedTag hedSchemas.attrs))]]
    else []
  else []

/-- `checkIfTagUnitClassUnitsAreValid`: after the date-time/clock-time
short circuits, the value with its unit stripped must be a valid
numeric/placeholder string. -/
def checkIfTagUnitClassUnitsAreValid (tag : ParsedHedTag)
    (hedSchemas : Schemas) (allowPlaceholders : Bool) : List Issue :=
  let attrs := hedSchemas.attrs
  if ¬ tagExistsInSchema tag.formattedTag attrs ∧
      isUnitClassTag tag.formattedTag attrs then
    let tagUnitClasses := getTagUnitClasses tag.formattedTag attrs
    let originalTagUnitValue := getTagName tag.originalTag
    let formattedTagUnitValue := getTagName tag.formattedTag
    let tagUnitClassUnits := getTagUnitClassUnits tag.formattedTag attrs
    let restCheck :=
      let value := validateUnits originalTagUnitValue formattedTagUnitValue
        tagUnitClassUnits attrs
      if ¬ validateValue value allowPlaceholders then
        [generateIssue "unitClassInvalidUnit"
          [("tag", PVal.s tag.originalTag),
           ("unitClassUnits", PVal.s (joinSortedUnits tagUnitClassUnits))]]
      else []
    if (attrs.units.lookup ("dateTime".toList)).isSome ∧
        tagUnitClasses.contains ("dateTime".toList) ∧
        isDateTime formattedTagUnitValue then []
    else if (attrs.units.lookup ("clockTime".toList)).isSome then
      if tagUnitClasses.contains ("clockTime".toList) ∧
          isClockFaceTime formattedTagUnitValue then []
      else restCheck
    else if (attrs.units.lookup ("time".toList)).isSome ∧
        tagUnitClasses.contains ("time".toList) ∧
        isClockFaceTime formattedTagUnitValue then []
    else restCheck
  else []

/-- `checkIfTagIsValid`: schema membership, placeholder handling,
extension handling, and the extraneous-comma heuristic. -/
def checkIfTagIsValid (tag previousTag : ParsedHedTag) (hedSchemas : Schemas)
    (allowPlaceholders checkForWarnings : Bool) : List Issue :=
  let attrs := hedSchemas.attrs
  if tagExistsInSchema tag.formattedTag attrs ∨
      tagTakesValue tag.formattedTag attrs ∨
      tag.formattedTag = tilde then []
  else
    let extensionAllowed := isExtensionAllowedTag tag.formattedTag attrs
    if allowPlaceholders ∧ tag.formattedTag.contains '#' then
      let valueTag := replaceTagNameWithPound tag.formattedTag
      if tagTakesValue valueTag attrs then []
      else [generateIssue "invalidPlaceholder" [("tag", PVal.s tag.originalTag)]]
    else if ¬ extensionAllowed ∧
        tagTakesValue previousTag.formattedTag attrs then
      [generateIssue "extraCommaOrInvalid"
        [("tag", PVal.s tag.originalTag),
         ("previousTag", PVal.s previousTag.originalTag)]]
    else if ¬ extensionAllowed then
      [generateIssue "invalidTag" [("tag", PVal.s tag.originalTag)]]
    else if checkForWarnings then
      [generateIssue "extension" [("tag", PVal.s tag.originalTag)]]
    else []

-- Validation groups (`src/validator/event.js`).

/-- `validateIndividualHedTag`. -/
def validateIndividualHedTag (tag previousTag : ParsedHedTag)
    (hedSchemas : Schemas)
    (doSemanticValidation checkForWarnings allowPlaceholders : Bool) :
    List Issue :=
  (if doSemanticValidation then
    checkIfTagIsValid tag previousTag hedSchemas allowPlaceholders
      checkForWarnings ++
    checkIfTagUnitClassUnitsAreValid tag hedSchemas allowPlaceholders ++
    checkIfTagRequiresChild tag hedSchemas ++
    (if checkForWarnings then
      checkIfTagUnitClassUnitsExist tag hedSchemas allowPlaceholders
     else [])
   else []) ++
  (if checkForWarnings then
    checkCapitalization tag hedSchemas doSemanticValidation
   else [])

/-- `validateIndividualHedTags`: fold over the flat tag list, threading
the previous tag (initially the empty tag). -/
def validateIndividualHedTags (parsedString : ParsedString)
    (hedSchemas : Schemas)
    (doSemanticValidation checkForWarnings allowPlaceholders : Bool) :
    List Issue :=
  (parsedString.tags.foldl
    (fun st tag =>
      (tag, st.2 ++ validateIndividualHedTag tag st.1 hedSchemas
        doSemanticValidation checkForWarnings allowPlaceholders))
    ((mkParsedHedTag [], []) : ParsedHedTag × List Issue)).2

/-- `validateHedTagLevel`. -/
def validateHedTagLevel (tagList : List ParsedHedTag) (hedSchemas : Schemas)
    (doSemanticValidation : Bool) : List Issue :=
  (if doSemanticValidation then checkForMultipleUniqueTags tagList hedSchemas
   else []) ++
  checkForDuplicateTags tagList

/-- `validateHedTagLevels`.  The source calls `validateHedTagLevel` for
each group without the `doSemanticValidation` argument, so that argument
is `undefined` (falsy) for group levels; only the top-level list
receives the real flag. -/
def validateHedTagLevels (parsedString : ParsedString) (hedSchemas : Schemas)
    (doSemanticValidation : Bool) : List Issue :=
  (parsedString.tagGroups.foldl
    (fun issues tagList =>
      issues ++ validateHedTagLevel tagList hedSchemas false) []) ++
  validateHedTagLevel parsedString.topLevelTags hedSchemas
    doSemanticValidation

/-- `validateHedTagGroup`. -/
def validateHedTagGroup (originalTagGroup : ParsedHedTag)
    (parsedTagGroup : List ParsedHedTag) : List Issue :=
  checkNumberOfGroupTildes originalTagGroup parsedTagGroup

/-- `validateHedTagGroups`. -/
def validateHedTagGroups (parsedString : ParsedString) : List Issue :=
  (List.range parsedString.tagGroups.length).foldl
    (fun issues i =>
      issues ++ validateHedTagGroup
        (parsedString.tagGroupStrings.getD i ⟨[], [], []⟩)
        (parsedString.tagGroups.getD i [])) []

/-- `validateTopLevelTags`. -/
def validateTopLevelTags (parsedString : ParsedString) (hedSchemas : Schemas)
    (doSemanticValidation checkForWarnings : Bool) : List Issue :=
  if doSemanticValidation ∧ checkForWarnings then
    checkForRequiredTags parsedString hedSchemas
  else []

-- Validation orchestrator (`src/validator/event.js`).  The JS code's
-- only write to the shared schema object (the lazy construction of
-- `baseSchema.attributes`) is made explicit by returning the updated
-- `Schemas` value.

/-- `initiallyValidateHedString`: build the schema attributes if needed,
run the structural check (fatal), then the parser (its issues fatal). -/
def initiallyValidateHedString (hedString : Str) (hedSchemas : Schemas)
    (doSemanticValidation : Bool) :
    (Bool × List Issue × Option ParsedString) × Schemas :=
  let hedSchemas :=
    if doSemanticValidation ∧ hedSchemas.baseSchema.attributes = none then
      let base := hedSchemas.baseSchema
      let builtAttributes := buildSchemaAttributesObject base.xmlData
      { hedSchemas with baseSchema := { base with attributes := some builtAttributes } }
    else hedSchemas
  let full := validateFullHedString hedString
  if full.2 ≠ [] then ((false, full.2 ++ full.1, none), hedSchemas)
  else
    let parsed := parseHedStringTyped hedString
    if parsed.2 ≠ [] then ((false, parsed.2 ++ full.1, none), hedSchemas)
    else ((true, full.1, some parsed.1), hedSchemas)

/-- `validateHedString`.  A `none` schema argument plays the role of a
non-`Schemas` value (no semantic validation).  The second component is
the schema argument as visible to the caller after the call. -/
def validateHedString (hedString : Str) (hedSchemas : Option Schemas)
    (checkForWarnings allowPlaceholders : Bool) :
    (Bool × List Issue) × Option Schemas :=
  let doSemanticValidation := hedSchemas.isSome
  let r := initiallyValidateHedString hedString (hedSchemas.getD nullSchemas)
    doSemanticValidation
  let hedSchemas' := if hedSchemas.isSome then some r.2 else none
  if r.1.1 then
    let parsedString := r.1.2.2.getD emptyParsedString
    let issues := r.1.2.1 ++
      validateIndividualHedTags parsedString r.2 doSemanticValidation
        checkForWarnings allowPlaceholders ++
      validateHedTagGroups parsedString
    if issues = [] then ((true, []), hedSchemas')
    else ((false, issues), hedSchemas')
  else ((false, r.1.2.1), hedSchemas')

/-- `validateHedEvent`.  `allowPlaceholders` is not forwarded (it
defaults to `false` in every inner check). -/
def validateHedEvent (hedString : Str) (hedSchemas : Option Schemas)
    (checkForWarnings : Bool) :
    (Bool × List Issue) × Option Schemas :=
  let doSemanticValidation := hedSchemas.isSome
  let r := initiallyValidateHedString hedString (hedSchemas.getD nullSchemas)
    doSemanticValidation
  let hedSchemas' := if hedSchemas.isSome then some r.2 else none
  if r.1.1 then
    let parsedString := r.1.2.2.getD emptyParsedString
    let issues := r.1.2.1 ++
      validateTopLevelTags parsedString r.2 doSemanticValidation
        checkForWarnings ++
      validateIndividualHedTags parsedString r.2 doSemanticValidation
        checkForWarnings false ++
      validateHedTagLevels parsedString r.2 doSemanticValidation ++
      validateHedTagGroups parsedString
    if issues = [] then ((true, []), hedSchemas')
    else ((false, issues), hedSchemas')
  else ((false, r.1.2.1), hedSchemas')

-- Concrete data used by counterexamples and witnesses.

/-- A schema with the two tags `unique/a`, `unique/b` and the unique
prefix `unique/`. -/
def uniquePrefixAttrs : SchemaAttributes :=
  { emptySchemaAttributes with
    tags := ["unique/a".toList, "unique/b".toList],
    unique := ["unique/".toList] }

def uniquePrefixSchemas : Schemas := ⟨⟨some uniquePrefixAttrs, ⟨⟩⟩⟩

/-- A schema whose attribute dictionaries have not been built yet. -/
def schemasNoAttrs : Schemas := ⟨⟨none, ⟨⟩⟩⟩

/-- A schema whose attribute dictionaries are already built. -/
def schemasBuilt : Schemas := ⟨⟨some emptySchemaAttributes, ⟨⟩⟩⟩

/-- Two parsed tags with equal formatted form whose originals differ
only in case. -/
def dupTagLower : ParsedHedTag :=
  ⟨"Event/X".toList, "event/x".toList, "Event/X".toList⟩

def dupTagUpper : ParsedHedTag :=
  ⟨"EVENT/X".toList, "event/x".toList, "EVENT/X".toList⟩

end Hed

namespace Hed

/-! ### Helper lemmas -/

theorem charOfNat_toNat (n : Nat) (h : n < 55296) : (Char.ofNat n).toNat = n := by
  unfold Char.ofNat
  rw [dif_pos (Or.inl h : Nat.isValidChar n)]
  simp [Char.ofNatAux, Char.toNat, UInt32.toNat, BitVec.toNat_ofNatLt]

theorem jsToLowerChar_idem (c : Char) :
    jsToLowerChar (jsToLowerChar c) = jsToLowerChar c := by
  unfold jsToLowerChar
  by_cases h : 65 ≤ c.toNat ∧ c.toNat ≤ 90
  · rw [if_pos h]
    have hn : (Char.ofNat (c.toNat + 32)).toNat = c.toNat + 32 :=
      charOfNat_toNat _ (by omega)
    rw [if_neg]
    rw [hn]
    omega
  · rw [if_neg h, if_neg h]

theorem jsToLower_idem (s : Str) : jsToLower (jsToLower s) = jsToLower s := by
  simp only [jsToLower, List.map_map]
  exact List.map_congr_left (fun c _ => jsToLowerChar_idem c)

theorem replaceFirst_of_not_mem (s : Str) (a b : Char) (h : a ∉ s) :
    replaceFirst s a b = s := by
  induction s with
  | nil => rfl
  | cons c r ih =>
    simp only [List.mem_cons, not_or] at h
    simp only [replaceFirst, if_neg (Ne.symm h.1)]
    rw [ih h.2]

theorem initially_invalid_issues_ne_nil (hedString : Str) (hedSchemas : Schemas)
    (doSemanticValidation : Bool)
    (h : (initiallyValidateHedString hedString hedSchemas
      doSemanticValidation).1.1 = false) :
    (initiallyValidateHedString hedString hedSchemas
      doSemanticValidation).1.2.1 ≠ [] := by
  unfold initiallyValidateHedString at h ⊢
  by_cases hFull : (validateFullHedString hedString).2 = []
  · by_cases hParse : (parseHedStringTyped hedString).2 = []
    · simp [hFull, hParse] at h
    · simp [hFull, hParse, List.append_eq_nil]
  · simp [hFull, List.append_eq_nil]

theorem initially_schemas_unchanged (hedString : Str) (hedSchemas : Schemas)
    (doSemanticValidation : Bool)
    (h : hedSchemas.baseSchema.attributes ≠ none) :
    (initiallyValidateHedString hedString hedSchemas
      doSemanticValidation).2 = hedSchemas := by
  unfold initiallyValidateHedString
  by_cases hFull : (validateFullHedString hedString).2 = [] <;>
  by_cases hParse : (parseHedStringTyped hedString).2 = [] <;>
  simp [hFull, hParse, h]

theorem validateHedString_snd (hedString : Str) (hedSchemas : Option Schemas)
    (checkForWarnings allowPlaceholders : Bool) :
    (validateHedString hedString hedSchemas checkForWarnings
      allowPlaceholders).2 =
    if hedSchemas.isSome then
      some (initiallyValidateHedString hedString (hedSchemas.getD nullSchemas)
        hedSchemas.isSome).2
    else none := by
  unfold validateHedString
  by_cases hb : (initiallyValidateHedString hedString
      (hedSchemas.getD nullSchemas) hedSchemas.isSome).1.1 = true
  · rw [if_pos hb]
    dsimp only
    split_ifs <;> rfl
  · rw [if_neg hb]

theorem validateHedEvent_snd (hedString : Str) (hedSchemas : Option Schemas)
    (checkForWarnings : Bool) :
    (validateHedEvent hedString hedSchemas checkForWarnings).2 =
    if hedSchemas.isSome then
      some (initiallyValidateHedString hedString (hedSchemas.getD nullSchemas)
        hedSchemas.isSome).2
    else none := by
  unfold validateHedEvent
  by_cases hb : (initiallyValidateHedString hedString
      (hedSchemas.getD nullSchemas) hedSchemas.isSome).1.1 = true
  · rw [if_pos hb]
    dsimp only
    split_ifs <;> rfl
  · rw [if_neg hb]

/-! ### Claim C3 -/

/-- Claim C3: on every input whose structural check (parenthesis-count
balance plus the delimiter scan) reports at least one issue, both
`validateHedString` and `validateHedEvent` return invalid, carrying
exactly the structural issues followed by the character-substitution
warnings; the parsed structure is never produced. -/
theorem structural_issues_are_fatal (hedString : Str)
    (hedSchemas : Option Schemas) (checkForWarnings allowPlaceholders : Bool)
    (h : (validateFullHedString hedString).2 ≠ []) :
    (validateHedString hedString hedSchemas checkForWarnings
      allowPlaceholders).1 =
      (false, (validateFullHedString hedString).2 ++
        (validateFullHedString hedString).1) ∧
    (validateHedEvent hedString hedSchemas checkForWarnings).1 =
      (false, (validateFullHedString hedString).2 ++
        (validateFullHedString hedString).1) := by
  unfold validateHedString validateHedEvent initiallyValidateHedString
  simp [h]

/-- Witness for C3 at the input `","`. -/
theorem structural_issues_are_fatal_witness :
    (validateFullHedString (",".toList)).2 ≠ [] ∧
    (validateHedString (",".toList) none false false).1 =
      (false, (validateFullHedString (",".toList)).2 ++
        (validateFullHedString (",".toList)).1) := by
  refine ⟨by decide, ?_⟩
  exact (structural_issues_are_fatal (",".toList) none false false
    (by decide)).1

/-! ### Claim C1 -/

/-- Claim C1: for every input string and configuration, the boolean
returned by `validateHedString` and by `validateHedEvent` is `true`
exactly when the returned issue list is empty (and then the list is
literally `[]`). -/
theorem valid_iff_issues_empty (hedString : Str) (hedSchemas : Option Schemas)
    (checkForWarnings allowPlaceholders : Bool) :
    ((validateHedString hedString hedSchemas checkForWarnings
        allowPlaceholders).1.1 = true ↔
      (validateHedString hedString hedSchemas checkForWarnings
        allowPlaceholders).1.2 = []) ∧
    ((validateHedEvent hedString hedSchemas checkForWarnings).1.1 = true ↔
      (validateHedEvent hedString hedSchemas checkForWarnings).1.2 = []) := by
  constructor
  · unfold validateHedString
    by_cases hb : (initiallyValidateHedString hedString
        (hedSchemas.getD nullSchemas) hedSchemas.isSome).1.1
    · simp only [hb, if_true]
      split_ifs with hiss <;> simp_all
    · have hne := initially_invalid_issues_ne_nil hedString
        (hedSchemas.getD nullSchemas) hedSchemas.isSome
        (by simpa using hb)
      simp_all
  · unfold validateHedEvent
    by_cases hb : (initiallyValidateHedString hedString
        (hedSchemas.getD nullSchemas) hedSchemas.isSome).1.1
    · simp only [hb, if_true]
      split_ifs with hiss <;> simp_all
    · have hne := initially_invalid_issues_ne_nil hedString
        (hedSchemas.getD nullSchemas) hedSchemas.isSome
        (by simpa using hb)
      simp_all

/-! ### Claim C9 -/

/-- Counterexample to claim C9: when the schema attributes have not been
built yet, `validateHedString` installs them on the shared schema
object, so the `hedSchemas` argument is changed by the call. -/
theorem validate_mutates_unbuilt_schemas :
    (validateHedString ['a'] (some schemasNoAttrs) false false).2 ≠
      some schemasNoAttrs := by decide

/-- Claim C9 (amended): validation never mutates the schema argument
once its attribute dictionaries are built; the only write is the
one-time lazy construction of the attributes.  A non-schema argument
(`none`) is also left untouched. -/
theorem validate_preserves_built_schemas (hedString : Str) (s : Schemas)
    (a : SchemaAttributes) (checkForWarnings allowPlaceholders : Bool)
    (h : s.baseSchema.attributes = some a) :
    (validateHedString hedString (some s) checkForWarnings
      allowPlaceholders).2 = some s ∧
    (validateHedEvent hedString (some s) checkForWarnings).2 = some s ∧
    (validateHedString hedString none checkForWarnings
      allowPlaceholders).2 = none ∧
    (validateHedEvent hedString none checkForWarnings).2 = none := by
  have hs : (initiallyValidateHedString hedString s true).2 = s :=
    initially_schemas_unchanged hedString s true (by simp [h])
  refine ⟨?_, ?_, ?_, ?_⟩
  · rw [validateHedString_snd]
    simpa using hs
  · rw [validateHedEvent_snd]
    simpa using hs
  · rw [validateHedString_snd]
    rfl
  · rw [validateHedEvent_snd]
    rfl

/-- Witness for the amended C9 at a concrete built schema. -/
theorem validate_preserves_built_schemas_witness :
    schemasBuilt.baseSchema.attributes = some emptySchemaAttributes ∧
    (validateHedString ['a'] (some schemasBuilt) false false).2 =
      some schemasBuilt :=
  ⟨rfl, (validate_preserves_built_schemas ['a'] schemasBuilt
    emptySchemaAttributes false false rfl).1⟩

/-! ### Claim C4 -/

/-- Counterexample to claim C4: the formatter strips only one leading
slash, so formatting `"//a"` yields `"/a"`, and formatting again yields
`"a"` — `formatHedTag` is not idempotent. -/
theorem formatHedTag_not_idempotent :
    formatHedTag (formatHedTag ("//a".toList) false) false ≠
      formatHedTag ("//a".toList) false := by decide

/-- Claim C4 (amended): `formatHedTag` is idempotent on every tag whose
formatted form contains no newline and retains no leading/trailing
double quote or slash; in general re-formatting can strip further
characters. -/
theorem formatHedTag_idempotent (t : Str)
    (hnl : '\n' ∉ formatHedTag t false)
    (hq1 : ¬ listStartsWith (formatHedTag t false) ['"'])
    (hq2 : ¬ listEndsWith (formatHedTag t false) ['"'])
    (hs1 : ¬ listStartsWith (formatHedTag t false) ['/'])
    (hs2 : ¬ listEndsWith (formatHedTag t false) ['/']) :
    formatHedTag (formatHedTag t false) false = formatHedTag t false := by
  have hlower : jsToLower (formatHedTag t false) = formatHedTag t false := by
    unfold formatHedTag
    dsimp only
    exact jsToLower_idem _
  generalize hru : formatHedTag t false = r at *
  show formatHedTag r false = r
  unfold formatHedTag
  dsimp only
  rw [replaceFirst_of_not_mem _ _ _ hnl]
  rw [if_neg hq1, if_neg hq2, if_neg hs1, if_neg hs2]
  exact hlower

/-- Witness for the amended C4 at the tag `"A/B"`. -/
theorem formatHedTag_idempotent_witness :
    ('\n' ∉ formatHedTag ("A/B".toList) false ∧
     ¬ listStartsWith (formatHedTag ("A/B".toList) false) ['"'] ∧
     ¬ listEndsWith (formatHedTag ("A/B".toList) false) ['"'] ∧
     ¬ listStartsWith (formatHedTag ("A/B".toList) false) ['/'] ∧
     ¬ listEndsWith (formatHedTag ("A/B".toList) false) ['/']) ∧
    formatHedTag (formatHedTag ("A/B".toList) false) false =
      formatHedTag ("A/B".toList) false :=
  ⟨by decide, formatHedTag_idempotent ("A/B".toList) (by decide) (by decide)
    (by decide) (by decide) (by decide)⟩

/-! ### Claims C5 and C6: the unit resolution engine -/

theorem stripOffUnitsIfValid_fst_false (v : Str) (schema : SchemaAttributes)
    (d : Str) (sym : Bool)
    (h1 : ¬ listStartsWith v d) (h2 : ¬ listEndsWith v d) :
    (stripOffUnitsIfValid v schema d sym).1 = false := by
  unfold stripOffUnitsIfValid
  rw [if_neg h1, if_neg h2]
  rfl

theorem foldl_option_none (f : Str → Option Str) (l : List Str)
    (h : ∀ d ∈ l, f d = none) :
    l.foldl (fun acc d =>
      match acc with
      | some v => some v
      | none => f d) none = none := by
  induction l with
  | nil => rfl
  | cons d rest ih =>
    rw [List.foldl_cons]
    have hd : f d = none := h d (List.mem_cons_self d rest)
    simp only [hd]
    exact ih (fun d' hd' => h d' (List.mem_cons_of_mem d hd'))

theorem tryDerivative_eq_none (orig fmt : Str) (schema : SchemaAttributes)
    (u d : Str)
    (h1 : ¬ listStartsWith
      (if schema.unitSymbol.contains u then orig else fmt) d)
    (h2 : ¬ listEndsWith
      (if schema.unitSymbol.contains u then orig else fmt) d) :
    tryDerivative orig fmt schema u d = none := by
  unfold tryDerivative
  dsimp only
  by_cases hsym : schema.unitSymbol.contains u
  · rw [if_pos hsym] at h1 h2 ⊢
    simp only [stripOffUnitsIfValid_fst_false orig schema d true h1 h2,
      Bool.false_eq_true, if_false]
  · rw [if_neg hsym] at h1 h2 ⊢
    simp only [stripOffUnitsIfValid_fst_false fmt schema d false h1 h2,
      Bool.false_eq_true, if_false]

theorem tryUnit_eq_none (orig fmt : Str) (schema : SchemaAttributes) (u : Str)
    (h : ∀ d ∈ getValidDerivativeUnits u schema,
      ¬ listStartsWith (if schema.unitSymbol.contains u then orig else fmt) d ∧
      ¬ listEndsWith (if schema.unitSymbol.contains u then orig else fmt) d) :
    tryUnit orig fmt schema u = none := by
  unfold tryUnit
  exact foldl_option_none _ _ (fun d hd =>
    tryDerivative_eq_none orig fmt schema u d (h d hd).1 (h d hd).2)

theorem findFirstUnit_eq_none (orig fmt : Str) (schema : SchemaAttributes)
    (l : List Str) (h : ∀ u ∈ l, tryUnit orig fmt schema u = none) :
    findFirstUnit orig fmt schema l = none := by
  induction l with
  | nil => rfl
  | cons u rest ih =>
    rw [findFirstUnit, h u (List.mem_cons_self u rest)]
    exact ih (fun u' hu' => h u' (List.mem_cons_of_mem u hu'))

theorem insertDesc_perm (x : Str) (l : List Str) :
    List.Perm (insertDesc x l) (x :: l) := by
  induction l with
  | nil => rfl
  | cons y r ih =>
    rw [insertDesc]
    by_cases hxy : y.length > x.length
    · rw [if_pos hxy]
      exact ((ih.cons y).trans (List.Perm.swap x y r))
    · rw [if_neg hxy]

theorem sortDescLength_perm (l : List Str) :
    List.Perm (sortDescLength l) l := by
  induction l with
  | nil => rfl
  | cons x r ih =>
    rw [sortDescLength]
    exact (insertDesc_perm x (sortDescLength r)).trans (ih.cons x)

/-- Counterexample to claim C5: with no candidate unit at all (so no
unit matches), `validateUnits` returns the formatted value, not the
original one. -/
theorem validateUnits_not_original :
    validateUnits ("X".toList) ("x".toList) [] emptySchemaAttributes =
      "x".toList ∧
    ("x".toList : Str) ≠ "X".toList := by decide

/-- Claim C5 (amended): when no candidate unit nor any of its derivative
forms matches as a prefix or suffix of the compared value (the original
value for symbol units, the formatted value otherwise), `validateUnits`
returns the full formatted value unchanged. -/
theorem validateUnits_no_match (orig fmt : Str) (units : List Str)
    (schema : SchemaAttributes)
    (h : ∀ u ∈ units, ∀ d ∈ getValidDerivativeUnits u schema,
      ¬ listStartsWith (if schema.unitSymbol.contains u then orig else fmt) d ∧
      ¬ listEndsWith (if schema.unitSymbol.contains u then orig else fmt) d) :
    validateUnits orig fmt units schema = fmt := by
  unfold validateUnits
  rw [findFirstUnit_eq_none orig fmt schema (sortDescLength units)
    (fun u hu => tryUnit_eq_none orig fmt schema u
      (h u ((sortDescLength_perm units).mem_iff.mp hu)))]

/-- Witness for the amended C5: the unit `m` does not occur in `X`/`x`. -/
theorem validateUnits_no_match_witness :
    (∀ u ∈ ["m".toList], ∀ d ∈ getValidDerivativeUnits u emptySchemaAttributes,
      ¬ listStartsWith
        (if emptySchemaAttributes.unitSymbol.contains u then "X".toList
         else "x".toList) d ∧
      ¬ listEndsWith
        (if emptySchemaAttributes.unitSymbol.contains u then "X".toList
         else "x".toList) d) ∧
    validateUnits ("X".toList) ("x".toList) ["m".toList]
      emptySchemaAttributes = "x".toList :=
  ⟨by decide, validateUnits_no_match ("X".toList) ("x".toList) ["m".toList]
    emptySchemaAttributes (by decide)⟩

theorem insertDesc_sorted (x : Str) (l : List Str)
    (h : l.Pairwise (fun a b => b.length ≤ a.length)) :
    (insertDesc x l).Pairwise (fun a b => b.length ≤ a.length) := by
  induction l with
  | nil => simp [insertDesc]
  | cons y r ih =>
    rw [List.pairwise_cons] at h
    rw [insertDesc]
    by_cases hxy : y.length > x.length
    · rw [if_pos hxy]
      rw [List.pairwise_cons]
      constructor
      · intro z hz
        rcases List.mem_cons.mp ((insertDesc_perm x r).mem_iff.mp hz) with
          hzx | hzr
        · exact hzx ▸ Nat.le_of_lt hxy
        · exact h.1 z hzr
      · exact ih h.2
    · rw [if_neg hxy]
      rw [List.pairwise_cons]
      constructor
      · intro z hz
        rcases List.mem_cons.mp hz with hzy | hzr
        · exact hzy ▸ Nat.le_of_not_lt hxy
        · exact Nat.le_trans (h.1 z hzr) (Nat.le_of_not_lt hxy)
      · exact List.pairwise_cons.mpr h

theorem sortDescLength_sorted (l : List Str) :
    (sortDescLength l).Pairwise (fun a b => b.length ≤ a.length) := by
  induction l with
  | nil => exact List.Pairwise.nil
  | cons x r ih => exact insertDesc_sorted x (sortDescLength r) ih

theorem findFirstUnit_longest (orig fmt : Str) (schema : SchemaAttributes)
    (l : List Str) (hsort : l.Pairwise (fun a b => b.length ≤ a.length))
    (hex : ∃ u ∈ l, (tryUnit orig fmt schema u).isSome) :
    ∃ w ∈ l, (tryUnit orig fmt schema w).isSome ∧
      (∀ v ∈ l, (tryUnit orig fmt schema v).isSome → v.length ≤ w.length) ∧
      findFirstUnit orig fmt schema l = tryUnit orig fmt schema w := by
  induction l with
  | nil => simp at hex
  | cons u rest ih =>
    rw [List.pairwise_cons] at hsort
    by_cases hu : (tryUnit orig fmt schema u).isSome
    · refine ⟨u, List.mem_cons_self u rest, hu, ?_, ?_⟩
      · intro v hv _
        rcases List.mem_cons.mp hv with hvu | hvr
        · exact hvu ▸ Nat.le_refl _
        · exact hsort.1 v hvr
      · obtain ⟨v, hv⟩ := Option.isSome_iff_exists.mp hu
        rw [findFirstUnit, hv]
    · have hex' : ∃ v ∈ rest, (tryUnit orig fmt schema v).isSome := by
        rcases hex with ⟨w, hw, hws⟩
        rcases List.mem_cons.mp hw with hwu | hwr
        · exact absurd (hwu ▸ hws) hu
        · exact ⟨w, hwr, hws⟩
      obtain ⟨w, hwmem, hwsome, hwmax, hwfind⟩ := ih hsort.2 hex'
      refine ⟨w, List.mem_cons_of_mem u hwmem, hwsome, ?_, ?_⟩
      · intro v hv hvs
        rcases List.mem_cons.mp hv with hvu | hvr
        · exact absurd (hvu ▸ hvs) hu
        · exact hwmax v hvr hvs
      · rw [findFirstUnit, Option.not_isSome_iff_eq_none.mp hu, hwfind]

/-- Claim C6: `validateUnits` tries units in descending length order: on
candidate units `["s","second"]` and value `"3 second"` the stripped
remainder is `"3"` (not `"3 econd"`), and in general the unit whose
stripped remainder is returned has maximal length among all matching
units. -/
theorem validateUnits_longest_first :
    (validateUnits ("3 second".toList) ("3 second".toList)
        ["s".toList, "second".toList] emptySchemaAttributes = "3".toList ∧
     validateUnits ("3 second".toList) ("3 second".toList)
        ["s".toList, "second".toList] emptySchemaAttributes ≠
       "3 econd".toList) ∧
    ∀ (orig fmt : Str) (units : List Str) (schema : SchemaAttributes),
      (∃ u ∈ units, (tryUnit orig fmt schema u).isSome) →
      ∃ w ∈ units, (tryUnit orig fmt schema w).isSome ∧
        (∀ v ∈ units, (tryUnit orig fmt schema v).isSome →
          v.length ≤ w.length) ∧
        some (validateUnits orig fmt units schema) =
          tryUnit orig fmt schema w := by
  constructor
  · constructor <;> decide
  · intro orig fmt units schema hex
    have hex' : ∃ u ∈ sortDescLength units,
        (tryUnit orig fmt schema u).isSome := by
      rcases hex with ⟨u, hu, hus⟩
      exact ⟨u, (sortDescLength_perm units).mem_iff.mpr hu, hus⟩
    obtain ⟨w, hwmem, hwsome, hwmax, hwfind⟩ :=
      findFirstUnit_longest orig fmt schema (sortDescLength units)
        (sortDescLength_sorted units) hex'
    refine ⟨w, (sortDescLength_perm units).mem_iff.mp hwmem, hwsome, ?_, ?_⟩
    · intro v hv hvs
      exact hwmax v ((sortDescLength_perm units).mem_iff.mpr hv) hvs
    · unfold validateUnits
      rw [hwfind]
      obtain ⟨v, hv⟩ := Option.isSome_iff_exists.mp hwsome
      rw [hv]

/-- Witness for C6's universally quantified part at the unit list
`["m"]` and value `"3m"`. -/
theorem validateUnits_longest_first_witness :
    (∃ u ∈ ["m".toList], (tryUnit ("3m".toList) ("3m".toList)
      emptySchemaAttributes u).isSome) ∧
    ∃ w ∈ ["m".toList],
      (tryUnit ("3m".toList) ("3m".toList) emptySchemaAttributes w).isSome ∧
      (∀ v ∈ ["m".toList],
        (tryUnit ("3m".toList) ("3m".toList) emptySchemaAttributes v).isSome →
          v.length ≤ w.length) ∧
      some (validateUnits ("3m".toList) ("3m".toList) ["m".toList]
        emptySchemaAttributes) =
        tryUnit ("3m".toList) ("3m".toList) emptySchemaAttributes w :=
  ⟨by decide, validateUnits_longest_first.2 ("3m".toList) ("3m".toList)
    ["m".toList] emptySchemaAttributes (by decide)⟩

/-! ### Claim C10 -/

theorem capitalization_loop (e : Issue) (l : List Str) (issues : List Issue) :
    l.foldl (fun issues tagName =>
      if tagName ≠ capitalizeString tagName ∧ ¬ camelCaseTest tagName then
        issues ++ [e]
      else issues) issues =
    issues ++ List.replicate
      (l.countP (fun tagName =>
        decide (tagName ≠ capitalizeString tagName ∧ ¬ camelCaseTest tagName)))
      e := by
  induction l generalizing issues with
  | nil => simp
  | cons x xs ih =>
    rw [List.foldl_cons, List.countP_cons, ih]
    by_cases hx : x ≠ capitalizeString x ∧ ¬ camelCaseTest x
    · rw [if_pos hx, decide_eq_true hx]
      simp [List.replicate_succ', List.replicate_add]
      rw [← List.replicate_succ, List.replicate_succ']
    · rw [if_neg hx, decide_eq_false hx]
      simp

/-- Claim C10: `checkCapitalization` produces one `capitalization` issue
per offending path segment (the final value segment being skipped for a
value-taking tag under semantic validation), each issue naming the whole
original tag — so `n` offending segments give `n` identical issues. -/
theorem checkCapitalization_issue_per_segment (tag : ParsedHedTag)
    (hedSchemas : Schemas) (doSemanticValidation : Bool) :
    checkCapitalization tag hedSchemas doSemanticValidation =
      List.replicate
        ((if doSemanticValidation ∧
            tagTakesValue tag.formattedTag hedSchemas.attrs then
            (splitOnChar '/' tag.originalTag).dropLast
          else splitOnChar '/' tag.originalTag).countP
          (fun tagName => decide (tagName ≠ capitalizeString tagName ∧
            ¬ camelCaseTest tagName)))
        (generateIssue "capitalization" [("tag", PVal.s tag.originalTag)]) := by
  unfold checkCapitalization
  split_ifs with h <;>
    simpa using capitalization_loop
      (generateIssue "capitalization" [("tag", PVal.s tag.originalTag)]) _ []

/-! ### Claim C2 -/

/-- Counterexample to claim C2: the parser deduplicates `tags` by raw
string, so `"Event,event"` yields two entries whose formatted values are
both `"event"`. -/
theorem parse_tags_case_duplicate :
    (parseHedString ("Event,event".toList)).1.tags =
      ["Event".toList, "event".toList] ∧
    formatHedTag ("Event".toList) false = formatHedTag ("event".toList) false ∧
    ("Event".toList : Str) ≠ "event".toList := by decide

theorem nodup_snoc (l : List Str) (x : Str) (h : l.Nodup)
    (hx : ¬ l.contains x = true) : (l ++ [x]).Nodup := by
  have hx' : x ∉ l := by simpa using hx
  simp [List.nodup_append, h, hx']

theorem findTopLevelTags_tags_nodup :
    ∀ (l : List Str) (acc : ParseAccum), acc.tags.Nodup →
      (findTopLevelTags l acc).2.tags.Nodup := by
  intro l
  induction l with
  | nil => intro acc h; exact h
  | cons tagOrGroup rest ih =>
    intro acc h
    rw [findTopLevelTags]
    by_cases hg : hedStringIsAGroup tagOrGroup = true
    · rw [if_neg (not_not_intro hg)]
      exact ih acc h
    · rw [if_pos hg]
      dsimp only
      by_cases hc : acc.tags.contains tagOrGroup = true
      · rw [if_neg (not_not_intro hc)]
        exact ih acc h
      · rw [if_pos hc]
        exact ih _ (nodup_snoc acc.tags tagOrGroup h hc)

theorem findTagGroups_tags_nodup (fuel : Nat) :
    ∀ (l : List Str) (hedString : Str) (acc : ParseAccum),
      acc.tags.Nodup → (findTagGroups fuel l hedString acc).tags.Nodup := by
  induction fuel with
  | zero => intro l hed acc h; exact h
  | succ fuel ih =>
    intro l hed acc h
    match l with
    | [] => exact h
    | tagOrGroup :: rest =>
      rw [findTagGroups]
      by_cases hg : hedStringIsAGroup tagOrGroup = true
      · rw [if_pos hg]
        exact ih rest hed _ (ih _ hed _ h)
      · rw [if_neg hg]
        dsimp only
        by_cases ha : (hedStringIsAnAttributeGroup tagOrGroup hed).1 = true
        · rw [if_pos ha]
          exact ih rest hed _ h
        · rw [if_neg ha]
          by_cases hc : acc.tags.contains tagOrGroup = true
          · rw [if_neg (not_not_intro hc)]
            exact ih rest hed _ h
          · rw [if_pos hc]
            exact ih rest hed _ (nodup_snoc acc.tags tagOrGroup h hc)

/-- Claim C2 (amended): the parser's tag accumulator is deduplicated by
raw string — it never holds two equal raw entries — and the published
`tags` field is its image under newline removal.  Duplicate formatted
values (e.g. case-only differences) may occur. -/
theorem parse_tags_nodup (hedString : Str) :
    (parseHedStringAccum hedString).2.tags.Nodup ∧
    (parseHedString hedString).1.tags =
      (parseHedStringAccum hedString).2.tags.map
        (fun t => formatHedTag t true) := by
  constructor
  · unfold parseHedStringAccum
    dsimp only
    exact findTagGroups_tags_nodup _ _ _ _
      (findTopLevelTags_tags_nodup _ _ (by simp))
  · rfl

/-! ### Claim C7 -/

/-- Counterexample to claim C7: two tags inside a group both start with
the schema's unique prefix, yet `validateHedEvent` returns valid with no
issue at all — the uniqueness check only sees the top-level tag list. -/
theorem unique_tags_in_group_not_flagged :
    (validateHedEvent ("(Unique/A,Unique/B)".toList) (some uniquePrefixSchemas)
      false).1 = (true, []) ∧
    ("unique/".toList ∈ uniquePrefixSchemas.attrs.unique) ∧
    2 ≤ ((parseHedStringTyped ("(Unique/A,Unique/B)".toList)).1.tags.filter
      (fun t => listStartsWith t.formattedTag ("unique/".toList))).length := by
  refine ⟨by decide, by decide, by decide⟩

theorem findSecond_true_flag (pfx : Str) :
    ∀ (l : List ParsedHedTag),
      1 ≤ (l.filter (fun t => listStartsWith t.formattedTag pfx)).length →
      findSecond pfx l true = true := by
  intro l
  induction l with
  | nil => intro h; simp at h
  | cons t rest ih =>
    intro h
    rw [findSecond]
    by_cases ht : listStartsWith t.formattedTag pfx = true
    · rw [if_pos ht]
      rfl
    · rw [if_neg ht]
      rw [List.filter_cons_of_neg (by simpa using ht)] at h
      exact ih h

theorem findSecond_two (pfx : Str) :
    ∀ (l : List ParsedHedTag),
      2 ≤ (l.filter (fun t => listStartsWith t.formattedTag pfx)).length →
      findSecond pfx l false = true := by
  intro l
  induction l with
  | nil => intro h; simp at h
  | cons t rest ih =>
    intro h
    rw [findSecond]
    by_cases ht : listStartsWith t.formattedTag pfx = true
    · rw [if_pos ht]
      rw [List.filter_cons_of_pos (by simpa using ht)] at h
      exact findSecond_true_flag pfx rest (by simpa using Nat.le_of_succ_le_succ h)
    · rw [if_neg ht]
      rw [List.filter_cons_of_neg (by simpa using ht)] at h
      exact ih h

theorem uniqueFold_preserves (tagList : List ParsedHedTag) (x : Issue) :
    ∀ (keys : List Str) (acc : List Issue), x ∈ acc →
      x ∈ keys.foldl (fun issues uniqueTagPrefix =>
        if findSecond uniqueTagPrefix tagList false then
          issues ++ [generateIssue "multipleUniqueTags"
            [("tag", PVal.s uniqueTagPrefix)]]
        else issues) acc := by
  intro keys
  induction keys with
  | nil => intro acc h; exact h
  | cons k rest ih =>
    intro acc h
    rw [List.foldl_cons]
    by_cases hk : findSecond k tagList false = true
    · rw [if_pos hk]
      exact ih _ (List.mem_append_left _ h)
    · rw [if_neg hk]
      exact ih _ h

theorem uniqueFold_mem (tagList : List ParsedHedTag) (pfx : Str) :
    ∀ (keys : List Str) (acc : List Issue), pfx ∈ keys →
      findSecond pfx tagList false = true →
      generateIssue "multipleUniqueTags" [("tag", PVal.s pfx)] ∈
        keys.foldl (fun issues uniqueTagPrefix =>
          if findSecond uniqueTagPrefix tagList false then
            issues ++ [generateIssue "multipleUniqueTags"
              [("tag", PVal.s uniqueTagPrefix)]]
          else issues) acc := by
  intro keys
  induction keys with
  | nil => intro acc h; simp at h
  | cons k rest ih =>
    intro acc hmem hsec
    rw [List.foldl_cons]
    rcases List.mem_cons.mp hmem with hk | hk
    · subst hk
      rw [if_pos hsec]
      exact uniqueFold_preserves tagList _ rest _
        (List.mem_append_right _ (List.mem_singleton.mpr rfl))
    · by_cases hksec : findSecond k tagList false = true
      · rw [if_pos hksec]
        exact ih _ hk hsec
      · rw [if_neg hksec]
        exact ih _ hk hsec

/-- Claim C7 (amended): for every schema-declared unique prefix, when
two or more TOP-LEVEL tags start with that prefix, the tag-level pass of
event validation reports a `multipleUniqueTags` issue for it; tags
inside groups are not examined by this check. -/
theorem multiple_unique_top_level_tags_flagged (parsedString : ParsedString)
    (hedSchemas : Schemas) (pfx : Str)
    (hmem : pfx ∈ hedSchemas.attrs.unique)
    (hcount : 2 ≤ (parsedString.topLevelTags.filter
      (fun t => listStartsWith t.formattedTag pfx)).length) :
    generateIssue "multipleUniqueTags" [("tag", PVal.s pfx)] ∈
      validateHedTagLevels parsedString hedSchemas true := by
  unfold validateHedTagLevels validateHedTagLevel
  apply List.mem_append_right
  apply List.mem_append_left
  unfold checkForMultipleUniqueTags
  exact uniqueFold_mem parsedString.topLevelTags pfx hedSchemas.attrs.unique []
    hmem (findSecond_two pfx parsedString.topLevelTags hcount)

/-- Witness for the amended C7 with two unique-prefixed top-level
tags. -/
theorem multiple_unique_top_level_tags_flagged_witness :
    ("unique/".toList ∈ uniquePrefixSchemas.attrs.unique ∧
     2 ≤ ((⟨[], [], [], [mkParsedHedTag ("Unique/A".toList),
        mkParsedHedTag ("Unique/B".toList)]⟩ :
        ParsedString).topLevelTags.filter
      (fun t => listStartsWith t.formattedTag ("unique/".toList))).length) ∧
    generateIssue "multipleUniqueTags" [("tag", PVal.s ("unique/".toList))] ∈
      validateHedTagLevels
        (⟨[], [], [], [mkParsedHedTag ("Unique/A".toList),
          mkParsedHedTag ("Unique/B".toList)]⟩ : ParsedString)
        uniquePrefixSchemas true :=
  ⟨⟨by decide, by decide⟩,
   multiple_unique_top_level_tags_flagged _ uniquePrefixSchemas
     ("unique/".toList) (by decide) (by decide)⟩

/-! ### Claim C8 -/

/-- Counterexample to claim C8: two duplicate tags whose originals
differ only in case produce a `duplicateTag` issue naming whichever
original comes first, so swapping the two tags changes the issue. -/
theorem checkForDuplicateTags_order_dependent :
    checkForDuplicateTags [dupTagLower, dupTagUpper] ≠
      checkForDuplicateTags [dupTagUpper, dupTagLower] ∧
    dupTagLower.formattedTag = dupTagUpper.formattedTag ∧
    dupTagLower.formattedTag ≠ tilde := by
  refine ⟨by decide, by decide, by decide⟩

theorem dupInner_saturated (tagList : List ParsedHedTag) (p q : Nat)
    (huniq : ∀ a b, a < tagList.length → b < tagList.length → a ≠ b →
      (tagAt tagList a).formattedTag ≠ tilde →
      (tagAt tagList a).formattedTag = (tagAt tagList b).formattedTag →
      (a = p ∧ b = q) ∨ (a = q ∧ b = p))
    (i : Nat) (hi : i < tagList.length) :
    ∀ (js : List Nat) (st : List Nat × List Issue),
      p ∈ st.1 → q ∈ st.1 → (∀ j ∈ js, j < tagList.length) →
      dupInner tagList i js st = st := by
  intro js
  induction js with
  | nil => intro st _ _ _; rfl
  | cons j js ih =>
    intro st hp hq hjs
    rw [dupInner]
    by_cases hij : i = j
    · rw [if_pos hij]
      exact ih st hp hq (fun j' hj' => hjs j' (List.mem_cons_of_mem j hj'))
    · rw [if_neg hij]
      dsimp only
      rw [if_neg ?_]
      · exact ih st hp hq (fun j' hj' => hjs j' (List.mem_cons_of_mem j hj'))
      · rintro ⟨hnt', heq, hni, _⟩
        rcases huniq i j hi (hjs j (List.mem_cons_self j js)) hij hnt' heq with
          ⟨hip, _⟩ | ⟨hiq, _⟩
        · exact hni (by simpa using hip ▸ hp)
        · exact hni (by simpa using hiq ▸ hq)

theorem dupInner_nonpair (tagList : List ParsedHedTag) (p q : Nat)
    (huniq : ∀ a b, a < tagList.length → b < tagList.length → a ≠ b →
      (tagAt tagList a).formattedTag ≠ tilde →
      (tagAt tagList a).formattedTag = (tagAt tagList b).formattedTag →
      (a = p ∧ b = q) ∨ (a = q ∧ b = p))
    (i : Nat) (hi : i < tagList.length) (hip : i ≠ p) (hiq : i ≠ q) :
    ∀ (js : List Nat) (st : List Nat × List Issue),
      (∀ j ∈ js, j < tagList.length) →
      dupInner tagList i js st = st := by
  intro js
  induction js with
  | nil => intro st _; rfl
  | cons j js ih =>
    intro st hjs
    rw [dupInner]
    by_cases hij : i = j
    · rw [if_pos hij]
      exact ih st (fun j' hj' => hjs j' (List.mem_cons_of_mem j hj'))
    · rw [if_neg hij]
      dsimp only
      rw [if_neg ?_]
      · exact ih st (fun j' hj' => hjs j' (List.mem_cons_of_mem j hj'))
      · rintro ⟨hnt', heq, _, _⟩
        rcases huniq i j hi (hjs j (List.mem_cons_self j js)) hij hnt' heq with
          ⟨hip', _⟩ | ⟨hiq', _⟩
        · exact hip hip'
        · exact hiq hiq'

theorem dupInner_pair (tagList : List ParsedHedTag) (p q : Nat)
    (huniq : ∀ a b, a < tagList.length → b < tagList.length → a ≠ b →
      (tagAt tagList a).formattedTag ≠ tilde →
      (tagAt tagList a).formattedTag = (tagAt tagList b).formattedTag →
      (a = p ∧ b = q) ∨ (a = q ∧ b = p))
    (i k : Nat) (hi : i < tagList.length) (hk : k < tagList.length)
    (hik : i ≠ k)
    (hfmt' : (tagAt tagList i).formattedTag = (tagAt tagList k).formattedTag)
    (hnt' : (tagAt tagList i).formattedTag ≠ tilde)
    (hpik : p = i ∨ p = k) (hqik : q = i ∨ q = k) :
    ∀ (js : List Nat) (iss : List Issue),
      (∀ j ∈ js, j < tagList.length) →
      dupInner tagList i js ([], iss) =
        if k ∈ js then
          ([i, k], iss ++ [dupIssueFor (tagAt tagList i) (tagAt tagList k)])
        else ([], iss) := by
  intro js
  induction js with
  | nil => intro iss _; simp [dupInner]
  | cons j js ih =>
    intro iss hjs
    have hjs' : ∀ j' ∈ js, j' < tagList.length :=
      fun j' hj' => hjs j' (List.mem_cons_of_mem j hj')
    rw [dupInner]
    by_cases hij : i = j
    · rw [if_pos hij]
      have hkj : ¬ k ∈ ([j] : List Nat) := by
        simp [List.mem_singleton]
        exact fun hkj => hik (hij ▸ hkj.symm)
      rw [ih iss hjs']
      by_cases hkmem : k ∈ js
      · rw [if_pos hkmem, if_pos (List.mem_cons_of_mem j hkmem)]
      · rw [if_neg hkmem, if_neg ?_]
        intro hmem
        rcases List.mem_cons.mp hmem with hkj' | hkj'
        · exact hik (hij ▸ hkj'.symm)
        · exact hkmem hkj'
    · rw [if_neg hij]
      dsimp only
      by_cases hjk : j = k
      · subst hjk
        rw [if_pos ⟨hnt', hfmt', by simp, by simp⟩]
        rw [dupInner_saturated tagList p q huniq i hi js _ ?_ ?_ hjs']
        · rw [if_pos (List.mem_cons_self j js)]
          rfl
        · rcases hpik with hp' | hp'
          · exact hp' ▸ List.mem_cons_self i [j]
          · simp [hp']
        · rcases hqik with hq' | hq'
          · exact hq' ▸ List.mem_cons_self i [j]
          · simp [hq']
      · rw [if_neg ?_]
        · rw [ih iss hjs']
          by_cases hkmem : k ∈ js
          · rw [if_pos hkmem, if_pos (List.mem_cons_of_mem j hkmem)]
          · rw [if_neg hkmem, if_neg ?_]
            intro hmem
            rcases List.mem_cons.mp hmem with hkj' | hkj'
            · exact hjk hkj'.symm
            · exact hkmem hkj'
        · rintro ⟨hnt'', heq, _, _⟩
          rcases huniq i j hi (hjs j (List.mem_cons_self j js)) hij hnt'' heq
            with ⟨hip, hjq⟩ | ⟨hiq, hjp⟩
          · rcases hqik with hq' | hq'
            · exact hij (hjq.trans hq').symm
            · exact hjk (hjq.trans hq')
          · rcases hpik with hp' | hp'
            · exact hij (hjp.trans hp').symm
            · exact hjk (hjp.trans hp')

theorem dupOuter_saturated (tagList : List ParsedHedTag) (p q : Nat)
    (huniq : ∀ a b, a < tagList.length → b < tagList.length → a ≠ b →
      (tagAt tagList a).formattedTag ≠ tilde →
      (tagAt tagList a).formattedTag = (tagAt tagList b).formattedTag →
      (a = p ∧ b = q) ∨ (a = q ∧ b = p)) :
    ∀ (is : List Nat) (st : List Nat × List Issue),
      p ∈ st.1 → q ∈ st.1 → (∀ i ∈ is, i < tagList.length) →
      dupOuter tagList is st = st := by
  intro is
  induction is with
  | nil => intro st _ _ _; rfl
  | cons i is ih =>
    intro st hp hq his
    rw [dupOuter]
    rw [dupInner_saturated tagList p q huniq i
      (his i (List.mem_cons_self i is)) _ st hp hq
      (fun j hj => List.mem_range.mp hj)]
    exact ih st hp hq (fun i' hi' => his i' (List.mem_cons_of_mem i hi'))

theorem dupOuter_main (tagList : List ParsedHedTag) (p q : Nat)
    (hp : p < tagList.length) (hq : q < tagList.length) (hpq : p ≠ q)
    (hfmt : (tagAt tagList p).formattedTag = (tagAt tagList q).formattedTag)
    (hnt : (tagAt tagList p).formattedTag ≠ tilde)
    (huniq : ∀ a b, a < tagList.length → b < tagList.length → a ≠ b →
      (tagAt tagList a).formattedTag ≠ tilde →
      (tagAt tagList a).formattedTag = (tagAt tagList b).formattedTag →
      (a = p ∧ b = q) ∨ (a = q ∧ b = p)) :
    ∀ (is : List Nat) (iss : List Issue),
      (∀ i ∈ is, i < tagList.length) → (∃ i ∈ is, i = p ∨ i = q) →
      ∃ a b, (dupOuter tagList is ([], iss)).2 = iss ++ [dupIssueFor a b] := by
  intro is
  induction is with
  | nil => intro iss _ hex; simp at hex
  | cons i is ih =>
    intro iss his hex
    have his' : ∀ i' ∈ is, i' < tagList.length :=
      fun i' hi' => his i' (List.mem_cons_of_mem i hi')
    rw [dupOuter]
    by_cases hipq : i = p ∨ i = q
    · rcases hipq with hip | hiq
      · subst hip
        rw [dupInner_pair tagList i q huniq i q
          (his i (List.mem_cons_self i is)) hq hpq hfmt hnt
          (Or.inl rfl) (Or.inr rfl) _ iss (fun j hj => List.mem_range.mp hj)]
        rw [if_pos (List.mem_range.mpr hq)]
        rw [dupOuter_saturated tagList i q huniq is _ (by simp) (by simp) his']
        exact ⟨_, _, rfl⟩
      · subst hiq
        rw [dupInner_pair tagList p i huniq i p
          (his i (List.mem_cons_self i is)) hp (fun h => hpq h.symm)
          hfmt.symm (fun h => hnt (hfmt.trans h))
          (Or.inr rfl) (Or.inl rfl) _ iss (fun j hj => List.mem_range.mp hj)]
        rw [if_pos (List.mem_range.mpr hp)]
        rw [dupOuter_saturated tagList p i huniq is _ (by simp) (by simp) his']
        exact ⟨_, _, rfl⟩
    · rw [dupInner_nonpair tagList p q huniq i
        (his i (List.mem_cons_self i is))
        (fun h => hipq (Or.inl h)) (fun h => hipq (Or.inr h))
        _ _ (fun j hj => List.mem_range.mp hj)]
      apply ih iss his'
      rcases hex with ⟨x, hx, hxpq⟩
      rcases List.mem_cons.mp hx with hxi | hxi
      · exact absurd (hxi ▸ hxpq) hipq
      · exact ⟨x, hxi, hxpq⟩

/-- Claim C8 (amended): for every tag list in which exactly one pair of
positions holds equal non-tilde formatted tags, `checkForDuplicateTags`
returns exactly one issue, and that issue is a `duplicateTag` issue;
this holds for every ordering of such a list, though the issue's tag
parameter may name whichever of the two tags comes first. -/
theorem checkForDuplicateTags_single_issue (tagList : List ParsedHedTag)
    (p q : Nat)
    (hp : p < tagList.length) (hq : q < tagList.length) (hpq : p ≠ q)
    (hfmt : (tagAt tagList p).formattedTag = (tagAt tagList q).formattedTag)
    (hnt : (tagAt tagList p).formattedTag ≠ tilde)
    (huniq : ∀ a b, a < tagList.length → b < tagList.length → a ≠ b →
      (tagAt tagList a).formattedTag ≠ tilde →
      (tagAt tagList a).formattedTag = (tagAt tagList b).formattedTag →
      (a = p ∧ b = q) ∨ (a = q ∧ b = p)) :
    ∃ a b, checkForDuplicateTags tagList = [dupIssueFor a b] := by
  unfold checkForDuplicateTags
  obtain ⟨a, b, hab⟩ := dupOuter_main tagList p q hp hq hpq hfmt hnt huniq
    (List.range tagList.length) []
    (fun i hi => List.mem_range.mp hi)
    ⟨p, List.mem_range.mpr hp, Or.inl rfl⟩
  exact ⟨a, b, by rw [hab]; rfl⟩

/-- Witness for the amended C8 at a concrete two-element list. -/
theorem checkForDuplicateTags_single_issue_witness :
    (0 < ([dupTagLower, dupTagUpper] : List ParsedHedTag).length ∧
     1 < ([dupTagLower, dupTagUpper] : List ParsedHedTag).length ∧
     (0 : Nat) ≠ 1 ∧
     (tagAt [dupTagLower, dupTagUpper] 0).formattedTag =
       (tagAt [dupTagLower, dupTagUpper] 1).formattedTag ∧
     (tagAt [dupTagLower, dupTagUpper] 0).formattedTag ≠ tilde) ∧
    ∃ a b, checkForDuplicateTags [dupTagLower, dupTagUpper] =
      [dupIssueFor a b] :=
  ⟨⟨by decide, by decide, by decide, by decide, by decide⟩,
   checkForDuplicateTags_single_issue [dupTagLower, dupTagUpper] 0 1
     (by decide) (by decide) (by decide) (by decide) (by decide)
     (by
       intro a b ha hb hab hnt heq
       have ha2 : a < 2 := by simpa using ha
       have hb2 : b < 2 := by simpa using hb
       interval_cases a <;> interval_cases b <;> simp_all)⟩

end Hed
